import Mathlib

set_option maxRecDepth 8192

/-!
Verification of the `fungen` code generator (src/fungen.go).

The development shallowly embeds the generator: renderer functions become
Lean functions producing the exact template text (Go braces are written as
the escapes \x7b and \x7d inside Lean string literals), the operation
registry becomes a Lean list of records, Go maps become association lists
whose iteration order is passed explicitly (Go does not fix an iteration
order for maps), and `log.Fatalf` becomes `Except.error`.  The external
formatter collaborator (`format.Source`, wrapped by `f` in the source) is
modelled as the identity on text.  The bodies of the *generated* methods
(Take, Drop, TakeWhile, DropWhile, Reduce, ReduceRight) are additionally
embedded as Lean functions on lists so their behaviour can be proved;
a Go slice-expression panic is modelled as `Option.none`.
-/

/-- Models `strings.Title` for ASCII input: a letter is mapped to upper
case when the previous character is a separator (anything other than an
ASCII letter, digit or underscore); the start of the string counts as a
separator. -/
def goIsWordChar (c : Char) : Bool := c.isAlphanum || c == '_'

def stringsTitleAux : Bool → List Char → List Char
  | _, [] => []
  | prevIsWord, c :: cs =>
    (if prevIsWord then c else c.toUpper) :: stringsTitleAux (goIsWordChar c) cs

def stringsTitle (s : String) : String := String.mk (stringsTitleAux false s.data)

/-- The `targetListName` computation shared by `getMapFunction` and
`getPMapFunction` (src/fungen.go lines 249-252 and 268-271):
`targetListName := targetType + "List"; if targetTypeName == "" { targetListName = listName }`. -/
def crossTargetListName (listName targetType targetTypeName : String) : String :=
  let targetListName := targetType ++ "List"
  if targetTypeName == "" then listName else targetListName

/-- The Map template of `getMapFunction` with the method name and the
target list type as explicit parameters (the source splices
`Map` ++ `strings.Title(targetTypeName)` into both slots marked `%[4]s`). -/
def mapRenderedWith (listName typeName targetType methodName targetListName : String) : String :=
  "\n        // " ++ methodName ++ " is a method on " ++ listName ++
  " that takes a function of type " ++ typeName ++ " -> " ++ targetType ++
  " and applies it to every member of " ++ listName ++
  "\n        func (l " ++ listName ++ ") " ++ methodName ++ "(f func(" ++ typeName ++
  ") " ++ targetType ++ ") " ++ targetListName ++
  " \x7b\n            l2 := make(" ++ targetListName ++
  ", len(l))\n            for i, t := range l \x7b\n                l2[i] = f(t)\n            \x7d\n            return l2\n        \x7d\n        "

/-- src/fungen.go `getMapFunction`. -/
def getMapFunction (listName typeName targetType targetTypeName : String) : String :=
  mapRenderedWith listName typeName targetType ("Map" ++ stringsTitle targetTypeName)
    (crossTargetListName listName targetType targetTypeName)

/-- The PMap template of `getPMapFunction` with the capitalized method
suffix and the target list type as explicit parameters (the source
splices `strings.Title(targetTypeName)` into the slots marked `%[4]s`). -/
def pmapRenderedWith (listName typeName targetType title targetListName : String) : String :=
  "\n        // PMap" ++ title ++ " is similar to Map" ++ title ++
  " except that it executes the function on each member in parallel.\n        func (l " ++
  listName ++ ") PMap" ++ title ++ "(f func(" ++ typeName ++ ") " ++ targetType ++ ") " ++
  targetListName ++ " \x7b\n            wg := sync.WaitGroup\x7b\x7d\n            l2 := make(" ++
  targetListName ++
  ", len(l))\n            for i, t := range l \x7b\n                wg.Add(1)\n                go func(i int, t " ++
  typeName ++
  ")\x7b\n                    l2[i] = f(t)\n                    wg.Done()\n                \x7d(i, t)\n            \x7d\n            wg.Wait()\n            return l2\n        \x7d\n        "

/-- src/fungen.go `getPMapFunction`. -/
def getPMapFunction (listName typeName targetType targetTypeName : String) : String :=
  pmapRenderedWith listName typeName targetType (stringsTitle targetTypeName)
    (crossTargetListName listName targetType targetTypeName)

/-- src/fungen.go `getFilterFunction`. -/
def getFilterFunction (listName typeName : String) (_ _ : String) : String :=
  "\n        // Filter is a method on " ++ listName ++ " that takes a function of type " ++
  typeName ++ " -> bool returns a list of type " ++ listName ++
  " which contains all members from the original list for which the function returned true\n        func (l " ++
  listName ++ ") Filter(f func(" ++ typeName ++ ") bool) " ++ listName ++
  " \x7b\n            l2 := []" ++ typeName ++
  "\x7b\x7d\n            for _, t := range l \x7b\n                if f(t) \x7b\n                    l2 = append(l2, t)\n                \x7d\n            \x7d\n            return l2\n        \x7d\n        "

/-- src/fungen.go `getPFilterFunction`. -/
def getPFilterFunction (listName typeName : String) (_ _ : String) : String :=
  "\n        // PFilter is similar to the Filter method except that the filter is applied to all the elements in parallel. The order of resulting elements cannot be guaranteed. \n        func (l " ++
  listName ++ ") PFilter(f func(" ++ typeName ++ ") bool) " ++ listName ++
  " \x7b\n            wg := sync.WaitGroup\x7b\x7d\n            mutex := sync.Mutex\x7b\x7d\n            l2 := []" ++
  typeName ++
  "\x7b\x7d\n            for _, t := range l \x7b\n                wg.Add(1)\n                go func(t " ++
  typeName ++
  ")\x7b\n                    if f(t) \x7b\n                        mutex.Lock()\n                        l2 = append(l2, t)\n                        mutex.Unlock()\n                    \x7d            \n                    wg.Done()\n                \x7d(t)\n            \x7d\n            wg.Wait()\n            return l2\n        \x7d\n        "

/-- src/fungen.go `getEachFunction`. -/
def getEachFunction (listName typeName : String) (_ _ : String) : String :=
  "\n        // Each is a method on " ++ listName ++ " that takes a function of type " ++
  typeName ++
  " -> void and applies the function to each member of the list and then returns the original list.\n        func (l " ++
  listName ++ ") Each(f func(" ++ typeName ++ ")) " ++ listName ++
  " \x7b\n            for _, t := range l \x7b\n                f(t) \n            \x7d\n            return l\n        \x7d\n        "

/-- src/fungen.go `getEachIFunction`. -/
def getEachIFunction (listName typeName : String) (_ _ : String) : String :=
  "\n        // EachI is a method on " ++ listName ++ " that takes a function of type (int, " ++
  typeName ++
  ") -> void and applies the function to each member of the list and then returns the original list. The int parameter to the function is the index of the element.\n        func (l " ++
  listName ++ ") EachI(f func(int, " ++ typeName ++ ")) " ++ listName ++
  " \x7b\n            for i, t := range l \x7b\n                f(i, t) \n            \x7d\n            return l\n        \x7d\n        "

/-- src/fungen.go `getDropWhileFunction`. -/
def getDropWhileFunction (listName typeName : String) (_ _ : String) : String :=
  "\n        // DropWhile is a method on " ++ listName ++ " that takes a function of type " ++
  typeName ++ " -> bool and returns a list of type " ++ listName ++
  " which excludes the first members from the original list for which the function returned true\n        func (l " ++
  listName ++ ") DropWhile(f func(" ++ typeName ++ ") bool) " ++ listName ++
  " \x7b\n            for i, t := range l \x7b\n                if !f(t) \x7b\n                    return l[i:]\n                \x7d\n            \x7d\n            var l2 " ++
  listName ++ "\n            return l2\n        \x7d\n        "

/-- src/fungen.go `getTakeWhileFunction`. -/
def getTakeWhileFunction (listName typeName : String) (_ _ : String) : String :=
  "\n        // TakeWhile is a method on " ++ listName ++ " that takes a function of type " ++
  typeName ++ " -> bool and returns a list of type " ++ listName ++
  " which includes only the first members from the original list for which the function returned true\n        func (l " ++
  listName ++ ") TakeWhile(f func(" ++ typeName ++ ") bool) " ++ listName ++
  " \x7b\n            for i, t := range l \x7b\n                if !f(t) \x7b\n                    return l[:i]\n                \x7d\n            \x7d\n            return l\n        \x7d\n        "

/-- src/fungen.go `getTakeFunction`. -/
def getTakeFunction (listName typeName : String) (_ _ : String) : String :=
  "\n        // Take is a method on " ++ listName ++
  " that takes an integer n and returns the first n elements of the original list. If the list contains fewer than n elements then the entire list is returned.\n        func (l " ++
  listName ++ ") Take(n int) " ++ listName ++
  " \x7b\n            if len(l) >= n \x7b\n                return l[:n]\n            \x7d\n            return l\n        \x7d\n        "

/-- src/fungen.go `getDropFunction`. -/
def getDropFunction (listName typeName : String) (_ _ : String) : String :=
  "\n        // Drop is a method on " ++ listName ++
  " that takes an integer n and returns all but the first n elements of the original list. If the list contains fewer than n elements then an empty list is returned.\n        func (l " ++
  listName ++ ") Drop(n int) " ++ listName ++
  " \x7b\n            if len(l) >= n \x7b\n                return l[n:]\n            \x7d\n            var l2 " ++
  listName ++ "\n            return l2\n        \x7d\n        "

/-- src/fungen.go `getReduceFunction`. -/
def getReduceFunction (listName typename : String) (_ _ : String) : String :=
  "\n        // Reduce is a method on " ++ listName ++ " that takes a function of type (" ++
  typename ++ ", " ++ typename ++ ") -> " ++ typename ++ " and returns a " ++ typename ++
  " which is the result of applying the function to all members of the original list starting from the first member\n        func (l " ++
  listName ++ ") Reduce(t1 " ++ typename ++ ", f func(" ++ typename ++ ", " ++ typename ++
  ") " ++ typename ++ ") " ++ typename ++
  " \x7b\n            for _, t := range l \x7b\n                t1 = f(t1, t)\n            \x7d\n            return t1\n        \x7d\n        "

/-- src/fungen.go `getReduceRightFunction`. -/
def getReduceRightFunction (listName typename : String) (_ _ : String) : String :=
  "\n        // ReduceRight is a method on " ++ listName ++ " that takes a function of type (" ++
  typename ++ ", " ++ typename ++ ") -> " ++ typename ++ " and returns a " ++ typename ++
  " which is the result of applying the function to all members of the original list starting from the last member\n        func (l " ++
  listName ++ ") ReduceRight(t1 " ++ typename ++ ", f func(" ++ typename ++ ", " ++ typename ++
  ") " ++ typename ++ ") " ++ typename ++
  " \x7b\n            for i := len(l) - 1; i >= 0; i-- \x7b\n                t := l[i]\n                t1 = f(t, t1)\n            \x7d\n            return t1\n        \x7d\n        "

/-- src/fungen.go `getAllFunction`. -/
def getAllFunction (listName typename : String) (_ _ : String) : String :=
  "\n        // All is a method on " ++ listName ++
  " that returns true if all the members of the list satisfy a function or if the list is empty. \n        func (l " ++
  listName ++ ") All(f func(" ++ typename ++ ") bool) bool" ++
  " \x7b\n            for _, t := range l \x7b\n                if !f(t) \x7b\n                    return false\n                \x7d\n            \x7d\n            return true\n        \x7d\n        "

/-- src/fungen.go `getAnyFunction`. -/
def getAnyFunction (listName typename : String) (_ _ : String) : String :=
  "\n        // Any is a method on " ++ listName ++
  " that returns true if at least one member of the list satisfies a function. It returns false if the list is empty. \n        func (l " ++
  listName ++ ") Any(f func(" ++ typename ++ ") bool) bool" ++
  " \x7b\n            for _, t := range l \x7b\n                if f(t) \x7b\n                    return true\n                \x7d\n            \x7d\n            return false\n        \x7d\n        "

/-- src/fungen.go `Generator`: one generator (renderer and information
about how it is expanded). `needSync` and `needMapToMap` default to
`false`, mirroring the zero value of omitted Go struct fields. -/
structure Generator where
  name : String
  method : String → String → String → String → String
  needSync : Bool := false
  needMapToMap : Bool := false

/-- src/fungen.go `generators`: the static operation registry, in source
order. -/
def generators : List Generator :=
  [ { name := "Map", method := getMapFunction, needSync := false, needMapToMap := true },
    { name := "PMap", method := getPMapFunction, needSync := true, needMapToMap := true },
    { name := "Filter", method := getFilterFunction, needSync := false },
    { name := "PFilter", method := getPFilterFunction, needSync := true },
    { name := "Reduce", method := getReduceFunction },
    { name := "ReduceRight", method := getReduceRightFunction },
    { name := "Take", method := getTakeFunction },
    { name := "TakeWhile", method := getTakeWhileFunction },
    { name := "Drop", method := getDropFunction },
    { name := "DropWhile", method := getDropWhileFunction },
    { name := "Each", method := getEachFunction },
    { name := "EachI", method := getEachIFunction },
    { name := "All", method := getAllFunction },
    { name := "Any", method := getAnyFunction } ]

/-- Models Go `strings.Split` for a one-character separator (the source
only splits on "," and ":"): splitting the empty string yields `[""]`,
and `n` separators yield `n + 1` fields. -/
def splitOnCharAux (sep : Char) : List Char → List Char → List String
  | [], acc => [String.mk acc.reverse]
  | c :: cs, acc =>
    if c == sep then String.mk acc.reverse :: splitOnCharAux sep cs []
    else splitOnCharAux sep cs (c :: acc)

def splitOnChar (s : String) (sep : Char) : List String :=
  splitOnCharAux sep s.data []

/-- Overwrite-or-append update of an association list, modelling
assignment `m[k] = v` on a Go `map[string]string`. -/
def insertEntry (m : List (String × String)) (k v : String) : List (String × String) :=
  if m.any (fun kv => kv.1 == k) then
    m.map (fun kv => if kv.1 == k then (k, v) else kv)
  else
    m ++ [(k, v)]

/-- src/fungen.go `getTypeMap`: parses the `-types` option into the
canonical-name to alias mapping.  The Go map is modelled as an
association list with distinct keys; an entry `Type` aliases to itself,
`Type:Alias` to `Alias`, and a repeated canonical name overwrites the
earlier alias (last-write-wins). -/
def getTypeMap (targets : String) : List (String × String) :=
  if targets = "" then []
  else
    (splitOnChar targets ',').foldl
      (fun m t =>
        match splitOnChar t ':' with
        | [] => m
        | [one] => insertEntry m one one
        | one :: two :: _ => insertEntry m one two)
      []

/-- The diagnostic printed by `log.Fatalf` in src/fungen.go line 213. -/
def methodErrMsg (method : String) : String :=
  "Error: -method parameter \x27" ++ method ++ "\x27 is not valid"

/-- The valid method names: every name in the registry (built by the
`generators.Each` loop in `getMethodsMap`). -/
def validMethodNames : List String := generators.map fun gen => gen.name

/-- The loop of src/fungen.go `getMethodsMap` lines 209-215: each name in
the split is added to the result when it is in the registry; an unknown
name terminates the run fatally (`log.Fatalf`, modelled as
`Except.error`). -/
def selectLoop : List String → List String → Except String (List String)
  | [], result => Except.ok result
  | method :: rest, result =>
    if validMethodNames.contains method then selectLoop rest (result ++ [method])
    else Except.error (methodErrMsg method)

/-- src/fungen.go `getMethodsMap`: get selected methods from the
`-methods` option, or return all methods.  The Go `map[string]bool`
(whose stored values are all `true`) is modelled as the list of its
keys, used only through membership. -/
def getMethodsMap (methodsStr : String) : Except String (List String) :=
  if methodsStr = "" then Except.ok (generators.map fun gen => gen.name)
  else selectLoop (splitOnChar methodsStr ',') []

/-- The type declaration rendered at the head of src/fungen.go
`generate` (lines 221-225). -/
def typeDeclFor (typeName listname : String) : String :=
  "\n            \n            // " ++ listname ++
  " is the type for a list that holds members of type " ++ typeName ++
  "\n            type " ++ listname ++ " []" ++ typeName ++ "\n            "

/-- src/fungen.go `generate`: the type declaration followed by, for each
selected generator in registry order, either one fragment per entry of
the type map (cross-type generators, with the target alias blanked when
the target canonical name equals the source type) or a single fragment.
The type map `m` is the list of entries in iteration order. -/
def generate (typeName listname : String) (m : List (String × String))
    (methodsMap : List String) : String :=
  typeDeclFor typeName listname ++
    String.join
      ((generators.filter fun gen => methodsMap.contains gen.name).flatMap fun gen =>
        if gen.needMapToMap then
          m.map fun kv =>
            gen.method listname typeName kv.1 (if kv.1 == typeName then "" else kv.2)
        else
          [gen.method listname typeName "" ""])

/-- One fully parameterized generation unit: the generator together with
the four argument strings `generate` passes to its renderer. -/
structure GenUnit where
  gen : Generator
  listname : String
  typeName : String
  targetType : String
  targetTypeName : String

/-- Rendering one unit is exactly the renderer call made by `generate`. -/
def GenUnit.render (u : GenUnit) : String :=
  u.gen.method u.listname u.typeName u.targetType u.targetTypeName

/-- The units one generator contributes for one source type (the body of
the `Each` loop in `generate`, src/fungen.go lines 230-243). -/
def unitsForGen (typeName listname : String) (m : List (String × String))
    (gen : Generator) : List GenUnit :=
  if gen.needMapToMap then
    m.map fun kv =>
      { gen := gen, listname := listname, typeName := typeName,
        targetType := kv.1,
        targetTypeName := if kv.1 == typeName then "" else kv.2 }
  else
    [{ gen := gen, listname := listname, typeName := typeName,
       targetType := "", targetTypeName := "" }]

/-- The generation units produced for one source type, in the order
`generate` renders them. -/
def expandUnitsForType (typeName listname : String) (m : List (String × String))
    (sel : List String) : List GenUnit :=
  (generators.filter fun gen => sel.contains gen.name).flatMap
    (unitsForGen typeName listname m)

/-- All generation units of one run, mirroring the loop in `main`
(src/fungen.go lines 136-139): for each type-map entry `(k1, v1)` in
iteration order, the units of `generate k1 (v1 ++ "List") m sel`. -/
def expandUnits (m : List (String × String)) (sel : List String) : List GenUnit :=
  m.flatMap fun kv => expandUnitsForType kv.1 (kv.2 ++ "List") m sel

/-- The number of selected registry operations with `needMapToMap = false`. -/
def singleOpCount (sel : List String) : Nat :=
  ((generators.filter fun gen => sel.contains gen.name).filter
    fun gen => !gen.needMapToMap).length

/-- The number of selected registry operations with `needMapToMap = true`. -/
def crossOpCount (sel : List String) : Nat :=
  ((generators.filter fun gen => sel.contains gen.name).filter
    fun gen => gen.needMapToMap).length

/-- src/fungen.go `main` lines 118-125: the conditional `sync` import.
The lookup `methodsMap[gen.name]` (value-or-false) is membership, since
`getMethodsMap` only stores `true`. -/
def importSyncFor (sel : List String) : String :=
  if (generators.filter fun gen => sel.contains gen.name && gen.needSync).length > 0 then
    "import \"sync\""
  else
    ""

/-- The header text of src/fungen.go `main` lines 127-132 up to the
`%[2]s` import slot. -/
def headerPre (packageName : String) : String :=
  "// Package " ++ packageName ++ " - generated by fungen; DO NOT EDIT\n            package " ++
  packageName ++ "\n            \n            "

/-- The header text following the `%[2]s` import slot. -/
def headerPost : String := "\n\t\t\t\n            "

/-- The assembled compilation-unit header of `main`. -/
def headerSrc (packageName : String) (sel : List String) : String :=
  headerPre packageName ++ importSyncFor sel ++ headerPost

/-- src/fungen.go `main` lines 127-139: the full generated text, for a
given iteration order of the type map (Go leaves map iteration order
unspecified, so the order is an explicit parameter here, constrained
only to enumerate the map entries).  The formatter `f`
(`format.Source`), an external collaborator, is modelled as the
identity on the text. -/
def mainSrc (packageName : String) (typeOrder : List (String × String))
    (sel : List String) : String :=
  headerSrc packageName sel ++
    String.join (typeOrder.map fun kv => generate kv.1 (kv.2 ++ "List") typeOrder sel)

/-- Models the body of the generated Take method (rendered by
`getTakeFunction`): `if len(l) >= n { return l[:n] }; return l`.  The Go
slice expression `l[:n]` panics unless `0 <= n <= len(l)`; a panic is
modelled as `none`. -/
def goTake {α : Type} (l : List α) (n : Int) : Option (List α) :=
  if (l.length : Int) ≥ n then
    if 0 ≤ n ∧ n ≤ (l.length : Int) then some (l.take n.toNat) else none
  else
    some l

/-- Models the body of the generated Drop method (rendered by
`getDropFunction`): `if len(l) >= n { return l[n:] }; var l2; return l2`.
The Go slice expression `l[n:]` panics unless `0 <= n <= len(l)`; a
panic is modelled as `none`, and the zero-value slice `l2` as `[]`. -/
def goDrop {α : Type} (l : List α) (n : Int) : Option (List α) :=
  if (l.length : Int) ≥ n then
    if 0 ≤ n ∧ n ≤ (l.length : Int) then some (l.drop n.toNat) else none
  else
    some []

/-- The index scan shared by the generated TakeWhile and DropWhile
bodies: the first index `i` with `!f(l[i])`, or `none` when every
element satisfies `f`. -/
def firstFailIdx {α : Type} (f : α → Bool) : List α → Option Nat
  | [] => none
  | t :: ts => if !f t then some 0 else (firstFailIdx f ts).map (fun i => i + 1)

/-- Models the body of the generated TakeWhile method (rendered by
`getTakeWhileFunction`): `for i, t := range l { if !f(t) { return l[:i] } }; return l`. -/
def goTakeWhile {α : Type} (l : List α) (f : α → Bool) : List α :=
  match firstFailIdx f l with
  | some i => l.take i
  | none => l

/-- Models the body of the generated DropWhile method (rendered by
`getDropWhileFunction`): `for i, t := range l { if !f(t) { return l[i:] } }; var l2; return l2`. -/
def goDropWhile {α : Type} (l : List α) (f : α → Bool) : List α :=
  match firstFailIdx f l with
  | some i => l.drop i
  | none => []

/-- Models the body of the generated Reduce method (rendered by
`getReduceFunction`): `for _, t := range l { t1 = f(t1, t) }; return t1` —
the accumulator is the first argument of `f`. -/
def goReduce {α : Type} (l : List α) (t1 : α) (f : α → α → α) : α :=
  match l with
  | [] => t1
  | t :: ts => goReduce ts (f t1 t) f

/-- The downward index loop of the generated ReduceRight body:
`goReduceRightLoop l f i t1` runs the loop over indices `i - 1, ..., 0`,
in that order, performing `t1 = f(l[i], t1)` at each index — the element
is the first argument of `f`. -/
def goReduceRightLoop {α : Type} [Inhabited α] (l : List α) (f : α → α → α) :
    Nat → α → α
  | 0, t1 => t1
  | i + 1, t1 => goReduceRightLoop l f i (f (l.getD i default) t1)

/-- Models the body of the generated ReduceRight method (rendered by
`getReduceRightFunction`): `for i := len(l) - 1; i >= 0; i-- { t := l[i]; t1 = f(t, t1) }; return t1`. -/
def goReduceRight {α : Type} [Inhabited α] (l : List α) (t1 : α) (f : α → α → α) : α :=
  goReduceRightLoop l f l.length t1

/-! ## Helper lemmas -/

theorem stringsTitle_empty : stringsTitle "" = "" := rfl

theorem goReduce_eq_foldl {α : Type} (f : α → α → α) :
    ∀ (l : List α) (t1 : α), goReduce l t1 f = l.foldl f t1 := by
  intro l
  induction l with
  | nil => intro t1; rfl
  | cons t ts ih => intro t1; simp [goReduce, List.foldl, ih]

theorem goReduceRightLoop_eq_foldr {α : Type} [Inhabited α] (l : List α) (f : α → α → α) :
    ∀ n, n ≤ l.length → ∀ t1, goReduceRightLoop l f n t1 = (l.take n).foldr f t1 := by
  intro n
  induction n with
  | zero => intro _ t1; simp [goReduceRightLoop]
  | succ i ih =>
    intro h t1
    have hi : i < l.length := Nat.lt_of_succ_le h
    rw [goReduceRightLoop, ih (Nat.le_of_lt hi)]
    have hgetD : l.getD i default = l[i] := by
      simp [List.getD_eq_getElem?_getD, List.getElem?_eq_getElem hi]
    rw [hgetD, List.take_succ, List.getElem?_eq_getElem hi, List.foldr_append]
    rfl

theorem goTakeWhile_eq_takeWhile {α : Type} (p : α → Bool) :
    ∀ l : List α, goTakeWhile l p = l.takeWhile p := by
  intro l
  induction l with
  | nil => rfl
  | cons t ts ih =>
    by_cases hp : p t = true
    · cases hidx : firstFailIdx p ts with
      | none =>
        have hts : ts.takeWhile p = ts := by rw [← ih]; simp [goTakeWhile, hidx]
        simp [goTakeWhile, firstFailIdx, hp, hidx, List.takeWhile_cons, hts]
      | some i =>
        have hts : ts.takeWhile p = ts.take i := by rw [← ih]; simp [goTakeWhile, hidx]
        simp [goTakeWhile, firstFailIdx, hp, hidx, List.takeWhile_cons, hts, List.take_succ_cons]
    · simp [goTakeWhile, firstFailIdx, hp, List.takeWhile_cons]

theorem goDropWhile_eq_dropWhile {α : Type} (p : α → Bool) :
    ∀ l : List α, goDropWhile l p = l.dropWhile p := by
  intro l
  induction l with
  | nil => rfl
  | cons t ts ih =>
    by_cases hp : p t = true
    · cases hidx : firstFailIdx p ts with
      | none =>
        have hts : ts.dropWhile p = [] := by rw [← ih]; simp [goDropWhile, hidx]
        simp [goDropWhile, firstFailIdx, hp, hidx, List.dropWhile_cons, hts]
      | some i =>
        have hts : ts.dropWhile p = ts.drop i := by rw [← ih]; simp [goDropWhile, hidx]
        simp [goDropWhile, firstFailIdx, hp, hidx, List.dropWhile_cons, hts, List.drop_succ_cons]
    · simp [goDropWhile, firstFailIdx, hp, List.dropWhile_cons]

theorem units_cross_count (typeName listname : String) (m : List (String × String)) :
    ∀ gs : List Generator,
      ((gs.flatMap (unitsForGen typeName listname m)).filter
          fun u => u.gen.needMapToMap).length
        = (gs.filter fun gen => gen.needMapToMap).length * m.length := by
  intro gs
  induction gs with
  | nil => simp
  | cons g gs ih =>
    rw [List.flatMap_cons, List.filter_append, List.length_append, ih]
    by_cases hg : g.needMapToMap = true
    · have hunits : (unitsForGen typeName listname m g).filter
          (fun u => u.gen.needMapToMap) = unitsForGen typeName listname m g := by
        apply List.filter_eq_self.mpr
        intro u hu
        unfold unitsForGen at hu
        rw [if_pos hg] at hu
        obtain ⟨kv, _, rfl⟩ := List.mem_map.mp hu
        simpa using hg
      rw [hunits, List.filter_cons_of_pos (by simpa using hg), List.length_cons]
      unfold unitsForGen
      rw [if_pos hg, List.length_map, Nat.succ_mul]
      omega
    · have hg' : g.needMapToMap = false := by simpa using hg
      have hunits : (unitsForGen typeName listname m g).filter
          (fun u => u.gen.needMapToMap) = [] := by
        apply List.filter_eq_nil_iff.mpr
        intro u hu
        unfold unitsForGen at hu
        rw [if_neg (by simp [hg'])] at hu
        simp at hu
        subst hu
        simp [hg']
      rw [hunits, List.filter_cons_of_neg (by simp [hg'])]
      simp

theorem units_single_count (typeName listname : String) (m : List (String × String)) :
    ∀ gs : List Generator,
      ((gs.flatMap (unitsForGen typeName listname m)).filter
          fun u => !u.gen.needMapToMap).length
        = (gs.filter fun gen => !gen.needMapToMap).length := by
  intro gs
  induction gs with
  | nil => simp
  | cons g gs ih =>
    rw [List.flatMap_cons, List.filter_append, List.length_append, ih]
    by_cases hg : g.needMapToMap = true
    · have hunits : (unitsForGen typeName listname m g).filter
          (fun u => !u.gen.needMapToMap) = [] := by
        apply List.filter_eq_nil_iff.mpr
        intro u hu
        unfold unitsForGen at hu
        rw [if_pos hg] at hu
        obtain ⟨kv, _, rfl⟩ := List.mem_map.mp hu
        simp [hg]
      rw [hunits, List.filter_cons_of_neg (by simp [hg])]
      simp
    · have hg' : g.needMapToMap = false := by simpa using hg
      have hunits : (unitsForGen typeName listname m g).filter
          (fun u => !u.gen.needMapToMap) = unitsForGen typeName listname m g := by
        apply List.filter_eq_self.mpr
        intro u hu
        unfold unitsForGen at hu
        rw [if_neg (by simp [hg'])] at hu
        simp at hu
        subst hu
        simp [hg']
      rw [hunits, List.filter_cons_of_pos (by simp [hg']), List.length_cons]
      unfold unitsForGen
      rw [if_neg (by simp [hg'])]
      simp
      omega

theorem expandUnitsForType_cross_count (typeName listname : String)
    (m : List (String × String)) (sel : List String) :
    ((expandUnitsForType typeName listname m sel).filter
        fun u => u.gen.needMapToMap).length = crossOpCount sel * m.length := by
  unfold expandUnitsForType crossOpCount
  rw [units_cross_count]

theorem expandUnitsForType_single_count (typeName listname : String)
    (m : List (String × String)) (sel : List String) :
    ((expandUnitsForType typeName listname m sel).filter
        fun u => !u.gen.needMapToMap).length = singleOpCount sel := by
  unfold expandUnitsForType singleOpCount
  rw [units_single_count]

theorem expandUnits_outer_count (m : List (String × String)) (sel : List String)
    (p : GenUnit → Bool) (c : Nat)
    (hc : ∀ kv : String × String,
      ((expandUnitsForType kv.1 (kv.2 ++ "List") m sel).filter p).length = c) :
    ∀ outer : List (String × String),
      (((outer.flatMap fun kv => expandUnitsForType kv.1 (kv.2 ++ "List") m sel).filter
          p).length) = outer.length * c := by
  intro outer
  induction outer with
  | nil => simp
  | cons kv rest ih =>
    rw [List.flatMap_cons, List.filter_append, List.length_append, ih, hc kv,
      List.length_cons, Nat.succ_mul]
    omega

/-- The function `generate` renders the type declaration followed by the
text of exactly the units `expandUnitsForType` enumerates, in order. -/
theorem generate_eq_render_units (typeName listname : String)
    (m : List (String × String)) (sel : List String) :
    generate typeName listname m sel =
      typeDeclFor typeName listname ++
        String.join ((expandUnitsForType typeName listname m sel).map GenUnit.render) := by
  unfold generate expandUnitsForType
  congr 1
  congr 1
  rw [List.map_flatMap]
  apply List.flatMap_congr
  intro gen _
  by_cases hg : gen.needMapToMap = true
  · simp only [unitsForGen, hg, if_true, List.map_map]
    rfl
  · have hg' : gen.needMapToMap = false := by simpa using hg
    simp only [unitsForGen, hg', Bool.false_eq_true, if_false, List.map_cons, List.map_nil]
    rfl

/-! ## Claim theorems -/

/-- C3: for every non-empty type specification resolving to K distinct
canonical types and every operation selection, the expansion renders
exactly K × S single-type units and K × K × C cross-type units, where S
is the number of selected operations with needMapToMap false and C the
number with needMapToMap true. -/
theorem c3_unit_counts (m : List (String × String)) (sel : List String)
    (hne : m ≠ []) (hkeys : (m.map Prod.fst).Nodup) :
    ((expandUnits m sel).filter fun u => !u.gen.needMapToMap).length
        = m.length * singleOpCount sel ∧
    ((expandUnits m sel).filter fun u => u.gen.needMapToMap).length
        = m.length * m.length * crossOpCount sel := by
  constructor
  · unfold expandUnits
    rw [expandUnits_outer_count m sel _ (singleOpCount sel)
      (fun kv => expandUnitsForType_single_count kv.1 (kv.2 ++ "List") m sel) m]
  · unfold expandUnits
    rw [expandUnits_outer_count m sel _ (crossOpCount sel * m.length)
      (fun kv => expandUnitsForType_cross_count kv.1 (kv.2 ++ "List") m sel) m]
    ring

/-- Witness for C3 at the type map of "int,string:S" with operations
Map and Take: 2 types, 1 cross-type and 1 single-type operation, hence
4 cross-type and 2 single-type units. -/
theorem c3_unit_counts_witness :
    ((expandUnits [("int", "int"), ("string", "S")] ["Map", "Take"]).filter
        fun u => !u.gen.needMapToMap).length = 2 ∧
    ((expandUnits [("int", "int"), ("string", "S")] ["Map", "Take"]).filter
        fun u => u.gen.needMapToMap).length = 4 := by
  have h := c3_unit_counts [("int", "int"), ("string", "S")] ["Map", "Take"]
    (by decide) (by decide)
  exact ⟨by rw [h.1]; rfl, by rw [h.2]; rfl⟩

/-- C9: the generated Reduce is the left fold applying f(accumulator,
element) left-to-right, and ReduceRight is the right fold applying
f(element, accumulator) right-to-left, so the two pass their arguments
to the combining function in opposite orders. -/
theorem c9_reduce_fold_orders {α : Type} [Inhabited α] (l : List α) (seed : α)
    (f : α → α → α) :
    goReduce l seed f = l.foldl f seed ∧ goReduceRight l seed f = l.foldr f seed := by
  constructor
  · exact goReduce_eq_foldl f l seed
  · unfold goReduceRight
    rw [goReduceRightLoop_eq_foldr l f l.length (Nat.le_refl _), List.take_length]

/-- C10: the generated TakeWhile and DropWhile split the list at the
index of the first element failing the predicate (whole list and empty
list when no element fails), so the result of TakeWhile followed by
the result of DropWhile reconstructs the list exactly. -/
theorem c10_takewhile_dropwhile_split {α : Type} (l : List α) (p : α → Bool) :
    goTakeWhile l p = l.takeWhile p ∧ goDropWhile l p = l.dropWhile p ∧
    goTakeWhile l p ++ goDropWhile l p = l := by
  refine ⟨goTakeWhile_eq_takeWhile p l, goDropWhile_eq_dropWhile p l, ?_⟩
  rw [goTakeWhile_eq_takeWhile p l, goDropWhile_eq_dropWhile p l]
  exact List.takeWhile_append_dropWhile p l

/-- C5 (amended): for the generated Take and Drop on a list of length L:
for every n >= L, Take returns the whole list and Drop returns an empty
list; for every n with 0 <= n < L, Take returns exactly the first n
elements and Drop returns exactly the remaining L - n elements.  (For
negative n both methods panic on an out-of-range slice, see the
counterexample and C8.) -/
theorem c5_take_drop (l : List Int) (n : Int) :
    ((l.length : Int) ≤ n → goTake l n = some l ∧ goDrop l n = some []) ∧
    (0 ≤ n → n < (l.length : Int) →
      goTake l n = some (l.take n.toNat) ∧ goDrop l n = some (l.drop n.toNat) ∧
      (l.take n.toNat).length = n.toNat ∧ (l.drop n.toNat).length = l.length - n.toNat) := by
  constructor
  · intro h
    by_cases hg : (l.length : Int) ≥ n
    · have heq : n = (l.length : Int) := le_antisymm hg h
      have hok : 0 ≤ n ∧ n ≤ (l.length : Int) := by omega
      have htoNat : n.toNat = l.length := by omega
      constructor
      · rw [goTake, if_pos hg, if_pos hok, htoNat, List.take_length]
      · rw [goDrop, if_pos hg, if_pos hok, htoNat, List.drop_length]
    · constructor
      · rw [goTake, if_neg hg]
      · rw [goDrop, if_neg hg]
  · intro h0 hlt
    have hg : (l.length : Int) ≥ n := le_of_lt hlt
    have hok : 0 ≤ n ∧ n ≤ (l.length : Int) := by omega
    refine ⟨by rw [goTake, if_pos hg, if_pos hok], by rw [goDrop, if_pos hg, if_pos hok], ?_, ?_⟩
    · rw [List.length_take]
      omega
    · rw [List.length_drop]

/-- Witness for C5 (amended) at l = [1, 2, 3] with n = 5 (beyond the
length) and n = 2 (within the length). -/
theorem c5_take_drop_witness :
    (goTake ([1, 2, 3] : List Int) 5 = some [1, 2, 3] ∧
      goDrop ([1, 2, 3] : List Int) 5 = some []) ∧
    (goTake ([1, 2, 3] : List Int) 2 = some [1, 2] ∧
      goDrop ([1, 2, 3] : List Int) 2 = some [3]) := by
  have h1 := (c5_take_drop [1, 2, 3] 5).1 (by decide)
  have h2 := (c5_take_drop [1, 2, 3] 2).2 (by decide) (by decide)
  exact ⟨h1, by simpa using ⟨h2.1, h2.2.1⟩⟩

/-- C5 as literally stated is false for negative n: -1 is smaller than
the length 1 of the list [0], yet the generated Take and Drop do not
return "the first n elements" and "the remaining elements" — they take
the guarded branch (len(l) >= n holds) and panic on the out-of-range
slice expressions l[:n] and l[n:] (modelled as none). -/
theorem c5_take_drop_counterexample :
    ((-1 : Int) < (([0] : List Int).length : Int)) ∧
    goTake ([0] : List Int) (-1) = none ∧ goDrop ([0] : List Int) (-1) = none := by
  decide

/-- C8: the slicing in the generated Take and Drop is in bounds only
under the precondition n >= 0: for every n >= 0 the taken branch
satisfies 0 <= n <= len(l) and both methods return a value, while for
every negative n the guard len(l) >= n always holds and the slice
expressions l[:n] and l[n:] are out of range (modelled as none), so the
generated methods are total only for non-negative n. -/
theorem c8_slice_bounds (l : List Int) (n : Int) :
    (0 ≤ n →
      ((l.length : Int) ≥ n → 0 ≤ n ∧ n ≤ (l.length : Int)) ∧
      (goTake l n).isSome = true ∧ (goDrop l n).isSome = true) ∧
    (n < 0 →
      (l.length : Int) ≥ n ∧ goTake l n = none ∧ goDrop l n = none) := by
  constructor
  · intro h0
    refine ⟨fun hg => ⟨h0, hg⟩, ?_, ?_⟩
    · by_cases hg : (l.length : Int) ≥ n
      · rw [goTake, if_pos hg, if_pos ⟨h0, hg⟩]; rfl
      · rw [goTake, if_neg hg]; rfl
    · by_cases hg : (l.length : Int) ≥ n
      · rw [goDrop, if_pos hg, if_pos ⟨h0, hg⟩]; rfl
      · rw [goDrop, if_neg hg]; rfl
  · intro hneg
    have hg : (l.length : Int) ≥ n := by
      have : (0 : Int) ≤ (l.length : Int) := Int.natCast_nonneg _
      omega
    have hbad : ¬(0 ≤ n ∧ n ≤ (l.length : Int)) := by omega
    exact ⟨hg, by rw [goTake, if_pos hg, if_neg hbad], by rw [goDrop, if_pos hg, if_neg hbad]⟩

/-- Witness for C8 at l = [0] with n = 1 (in bounds, both methods
return a value) and n = -1 (both methods hit an out-of-range slice). -/
theorem c8_slice_bounds_witness :
    (goTake ([0] : List Int) 1).isSome = true ∧ goTake ([0] : List Int) (-1) = none ∧
    goDrop ([0] : List Int) (-1) = none := by
  have h1 := ((c8_slice_bounds [0] 1).1 (by decide)).2.1
  have h2 := (c8_slice_bounds [0] (-1)).2 (by decide)
  exact ⟨h1, h2.2.1, h2.2.2⟩

theorem selectLoop_error (ms : List String) :
    ∀ acc : List String,
      (∃ meth ∈ ms, validMethodNames.contains meth = false) →
      ∃ meth ∈ ms, validMethodNames.contains meth = false ∧
        selectLoop ms acc = Except.error (methodErrMsg meth) := by
  induction ms with
  | nil => intro acc h; simp at h
  | cons m0 rest ih =>
    intro acc h
    by_cases hv : validMethodNames.contains m0 = true
    · have hrest : ∃ meth ∈ rest, validMethodNames.contains meth = false := by
        rcases h with ⟨me, hme, hinv⟩
        rcases List.mem_cons.mp hme with heq | hmem
        · subst heq; rw [hv] at hinv; cases hinv
        · exact ⟨me, hmem, hinv⟩
      rcases ih (acc ++ [m0]) hrest with ⟨me, hme, hinv, heq⟩
      refine ⟨me, List.mem_cons_of_mem _ hme, hinv, ?_⟩
      rw [selectLoop, if_pos hv, heq]
    · have hv' : validMethodNames.contains m0 = false := by simpa using hv
      refine ⟨m0, List.mem_cons_self _ _, hv', ?_⟩
      rw [selectLoop, if_neg (by rw [hv']; simp)]

/-- C6: an empty methods specification selects every operation name in
the registry; a specification containing a name not in the registry
terminates the run fatally (modelled as `Except.error`) with a
diagnostic containing that exact token, so no output is produced. -/
theorem c6_method_selection (s : String) :
    (s = "" → getMethodsMap s = Except.ok (generators.map fun gen => gen.name)) ∧
    (s ≠ "" →
      (∃ meth ∈ splitOnChar s ',', validMethodNames.contains meth = false) →
      ∃ meth ∈ splitOnChar s ',', validMethodNames.contains meth = false ∧
        getMethodsMap s = Except.error (methodErrMsg meth)) := by
  constructor
  · intro h
    rw [getMethodsMap, if_pos h]
  · intro hne hex
    rcases selectLoop_error (splitOnChar s ',') [] hex with ⟨me, hme, hinv, heq⟩
    refine ⟨me, hme, hinv, ?_⟩
    rw [getMethodsMap, if_neg hne, heq]

/-- Witness for C6: the empty specification yields every registry name,
and "Map,Bogus" fails with a diagnostic containing the token "Bogus". -/
theorem c6_method_selection_witness :
    getMethodsMap "" = Except.ok (generators.map fun gen => gen.name) ∧
    ∃ meth ∈ splitOnChar "Map,Bogus" ',', validMethodNames.contains meth = false ∧
      getMethodsMap "Map,Bogus" = Except.error (methodErrMsg meth) := by
  refine ⟨(c6_method_selection "").1 rfl, ?_⟩
  exact (c6_method_selection "Map,Bogus").2 (by decide) (by decide)

/-- C7: the generated header contains the `import "sync"` declaration
exactly when at least one selected operation descriptor has needSync
true (although the registry always contains the needSync operations
PMap and PFilter); the import occupies a single slot of the header,
which precedes every type declaration in the assembled output. -/
theorem c7_sync_import (sel : List String) (pkg : String)
    (order : List (String × String)) :
    (importSyncFor sel = "import \"sync\"" ↔
      ∃ gen ∈ generators, sel.contains gen.name = true ∧ gen.needSync = true) ∧
    ((¬ ∃ gen ∈ generators, sel.contains gen.name = true ∧ gen.needSync = true) →
      importSyncFor sel = "") ∧
    ((generators.map fun gen => gen.name).contains "PMap" = true ∧
      (generators.map fun gen => gen.name).contains "PFilter" = true) ∧
    mainSrc pkg order sel =
      headerPre pkg ++ importSyncFor sel ++ headerPost ++
        String.join (order.map fun kv => generate kv.1 (kv.2 ++ "List") order sel) := by
  have hiff : (generators.filter fun gen => sel.contains gen.name && gen.needSync).length > 0 ↔
      ∃ gen ∈ generators, sel.contains gen.name = true ∧ gen.needSync = true := by
    rw [gt_iff_lt, List.length_pos_iff_exists_mem]
    constructor
    · rintro ⟨g, hg⟩
      rcases List.mem_filter.mp hg with ⟨hmem, hprop⟩
      rcases Bool.and_eq_true_iff.mp hprop with ⟨h1, h2⟩
      exact ⟨g, hmem, h1, h2⟩
    · rintro ⟨g, hmem, h1, h2⟩
      exact ⟨g, List.mem_filter.mpr ⟨hmem, by rw [h1, h2]; rfl⟩⟩
  refine ⟨?_, ?_, ⟨rfl, rfl⟩, ?_⟩
  · constructor
    · intro h
      by_contra hne
      have hlen : ¬((generators.filter fun gen => sel.contains gen.name && gen.needSync).length > 0) :=
        fun hp => hne (hiff.mp hp)
      rw [importSyncFor, if_neg hlen] at h
      exact absurd h (by decide)
    · intro h
      rw [importSyncFor, if_pos (hiff.mpr h)]
  · intro h
    rw [importSyncFor, if_neg (fun hp => h (hiff.mp hp))]
  · rw [mainSrc, headerSrc, String.append_assoc, String.append_assoc]

/-- Witness for C7: selecting only non-concurrent operations yields no
sync import, selecting PMap yields it. -/
theorem c7_sync_import_witness :
    importSyncFor ["Map", "Filter", "Take"] = "" ∧
    importSyncFor ["PMap"] = "import \"sync\"" := by
  refine ⟨(c7_sync_import ["Map", "Filter", "Take"] "main" []).2.1 (by decide), ?_⟩
  exact (c7_sync_import ["PMap"] "main" []).1.mpr (by decide)

/-- C4: for every pair of requested types and every selected cross-type
operation — whenever Map is selected, and independently whenever PMap
is selected, the two cross-type operations of the registry — the
expansion contains a unit for the target entry whose rendered method
name is the bare operation name when the target canonical type equals
the source canonical type (whatever the aliases are), and otherwise the
bare name concatenated with the capitalized (strings.Title) form of the
target alias. -/
theorem c4_cross_method_name (m : List (String × String)) (typeName listname : String)
    (sel : List String) (kv : String × String) (hkv : kv ∈ m) :
    (sel.contains "Map" = true →
      ∃ u ∈ expandUnitsForType typeName listname m sel,
        u.gen.name = "Map" ∧ u.targetType = kv.1 ∧
        ∃ targetList,
          u.render = mapRenderedWith listname typeName kv.1
            (if kv.1 = typeName then "Map" else "Map" ++ stringsTitle kv.2) targetList) ∧
    (sel.contains "PMap" = true →
      ∃ u ∈ expandUnitsForType typeName listname m sel,
        u.gen.name = "PMap" ∧ u.targetType = kv.1 ∧
        ∃ targetList,
          u.render = pmapRenderedWith listname typeName kv.1
            (if kv.1 = typeName then "" else stringsTitle kv.2) targetList) := by
  constructor
  · intro hsel
    have hMapGen : (⟨"Map", getMapFunction, false, true⟩ : Generator) ∈ generators := by
      unfold generators
      exact List.mem_cons_self _ _
    refine ⟨⟨⟨"Map", getMapFunction, false, true⟩, listname, typeName, kv.1,
      if kv.1 == typeName then "" else kv.2⟩, ?_, rfl, rfl, ?_⟩
    · apply List.mem_flatMap.mpr
      refine ⟨_, List.mem_filter.mpr ⟨hMapGen, hsel⟩, ?_⟩
      rw [unitsForGen, if_pos rfl]
      exact List.mem_map.mpr ⟨kv, hkv, rfl⟩
    · refine ⟨crossTargetListName listname kv.1 (if kv.1 == typeName then "" else kv.2), ?_⟩
      show getMapFunction listname typeName kv.1 (if kv.1 == typeName then "" else kv.2) = _
      rw [getMapFunction]
      have hname : ("Map" ++ stringsTitle (if kv.1 == typeName then "" else kv.2))
          = if kv.1 = typeName then "Map" else "Map" ++ stringsTitle kv.2 := by
        by_cases h : kv.1 = typeName
        · have hb : (kv.1 == typeName) = true := beq_iff_eq.mpr h
          rw [hb, if_pos h]
          simp [stringsTitle_empty]
        · have hb : (kv.1 == typeName) = false := by simp [h]
          rw [hb, if_neg h]
          simp
      rw [hname]
  · intro hselP
    have hPMapGen : (⟨"PMap", getPMapFunction, true, true⟩ : Generator) ∈ generators := by
      unfold generators
      exact List.mem_cons_of_mem _ (List.mem_cons_self _ _)
    refine ⟨⟨⟨"PMap", getPMapFunction, true, true⟩, listname, typeName, kv.1,
      if kv.1 == typeName then "" else kv.2⟩, ?_, rfl, rfl, ?_⟩
    · apply List.mem_flatMap.mpr
      refine ⟨_, List.mem_filter.mpr ⟨hPMapGen, hselP⟩, ?_⟩
      rw [unitsForGen, if_pos rfl]
      exact List.mem_map.mpr ⟨kv, hkv, rfl⟩
    · refine ⟨crossTargetListName listname kv.1 (if kv.1 == typeName then "" else kv.2), ?_⟩
      show getPMapFunction listname typeName kv.1 (if kv.1 == typeName then "" else kv.2) = _
      rw [getPMapFunction]
      have hname : stringsTitle (if kv.1 == typeName then "" else kv.2)
          = if kv.1 = typeName then "" else stringsTitle kv.2 := by
        by_cases h : kv.1 = typeName
        · have hb : (kv.1 == typeName) = true := beq_iff_eq.mpr h
          rw [hb, if_pos h]
          simp [stringsTitle_empty]
        · have hb : (kv.1 == typeName) = false := by simp [h]
          rw [hb, if_neg h]
          simp
      rw [hname]

/-- Witness for C4: in the type map of "int,string:S", selecting Map
alone makes the unit on source int targeting string render with method
name MapS, and selecting PMap alone (with Map unselected) makes it
render with method name PMapS — bare name plus capitalized alias S. -/
theorem c4_cross_method_name_witness :
    (∃ u ∈ expandUnitsForType "int" "intList" [("int", "int"), ("string", "S")] ["Map"],
      u.gen.name = "Map" ∧ u.targetType = "string" ∧
      ∃ targetList,
        u.render = mapRenderedWith "intList" "int" "string"
          (if ("string" : String) = "int" then "Map" else "Map" ++ stringsTitle "S")
          targetList) ∧
    (∃ u ∈ expandUnitsForType "int" "intList" [("int", "int"), ("string", "S")] ["PMap"],
      u.gen.name = "PMap" ∧ u.targetType = "string" ∧
      ∃ targetList,
        u.render = pmapRenderedWith "intList" "int" "string"
          (if ("string" : String) = "int" then "" else stringsTitle "S")
          targetList) := by
  have hMap := (c4_cross_method_name [("int", "int"), ("string", "S")] "int" "intList"
    ["Map"] ("string", "S") (by decide)).1 (by decide)
  have hPMap := (c4_cross_method_name [("int", "int"), ("string", "S")] "int" "intList"
    ["PMap"] ("string", "S") (by decide)).2 (by decide)
  exact ⟨hMap, hPMap⟩

/-- C2 is refuted on the code: for the cross-type Map and PMap units of
type specification "int,string:S" (source int, target string aliased S),
the computed result list type is "stringList" — the canonical name plus
"List" — not the alias-based "SList" that names the list type the output
declares for the target, and the rendered text mentions "stringList" but
never "SList". -/
theorem c2_alias_target_list :
    crossTargetListName "intList" "string" "S" = "stringList" ∧
    ("stringList" : String) ≠ "S" ++ "List" ∧
    "stringList".data <:+: (getMapFunction "intList" "int" "string" "S").data ∧
    ¬("SList".data <:+: (getMapFunction "intList" "int" "string" "S").data) ∧
    "stringList".data <:+: (getPMapFunction "intList" "int" "string" "S").data ∧
    ¬("SList".data <:+: (getPMapFunction "intList" "int" "string" "S").data) ∧
    "type SList []string".data <:+: (typeDeclFor "string" "SList").data := by
  refine ⟨rfl, by decide, by decide, by decide, by decide, by decide, by decide⟩

/-- C1 is refuted on the code: the type map for "int,string" holds the
two entries int and string, Go may legally iterate them in either order
(the two orders are permutations of the same map), and the two orders
make `main` assemble different bytes — so the generated text is not
determined by the configuration inputs alone. -/
theorem c1_output_order_dependence :
    getTypeMap "int,string" = [("int", "int"), ("string", "string")] ∧
    ([(("int" : String), ("int" : String)), ("string", "string")]).Perm
      [("string", "string"), ("int", "int")] ∧
    mainSrc "main" [("int", "int"), ("string", "string")] ["Take"] ≠
      mainSrc "main" [("string", "string"), ("int", "int")] ["Take"] := by
  refine ⟨by decide, by decide, by decide⟩
